import Mathlib

/-!
Verification of the arXiv-discovery and WeChat message-chunking core of the
zotero-arxiv-feishu-llm repository.  Python strings are modelled as lists of
Unicode code points (`Str`), which matches Python's `len`/slicing semantics.
All functions are direct translations of the corresponding Python functions
in src/arxiv_fetcher.py and src/wechat.py.
-/

/-- Python strings are sequences of code points. -/
abbrev Str := List Char

/-- Convert a Lean string literal to the code-point list model. -/
def str (s : String) : Str := s.data

/-- Whitespace as recognised by Python's `str.strip`, `str.split` and the
regex class used in src/arxiv_fetcher.py (ASCII whitespace). -/
def pyIsSpace (c : Char) : Bool :=
  c = ' ' || c = '\t' || c = '\n' || c = '\r' || c = '\x0b' || c = '\x0c'

/-- Python `str.strip()`. -/
def pyStrip (s : Str) : Str :=
  ((s.dropWhile pyIsSpace).reverse.dropWhile pyIsSpace).reverse

/-- Accumulator pass of `pySplitPred`: `cur` is the reversed current word. -/
def pySplitAux (p : Char → Bool) : Str → Str → List Str
  | cur, [] => if cur.isEmpty then [] else [cur.reverse]
  | cur, c :: t =>
    if p c then
      if cur.isEmpty then pySplitAux p [] t else cur.reverse :: pySplitAux p [] t
    else pySplitAux p (c :: cur) t

/-- Split on maximal runs of characters satisfying `p`, dropping empty pieces.
This models both Python's `str.split()` (with `p = pyIsSpace`) and
`[t for t in re.split(r"[+,\s]+", s) if t]` (with `p = isDelim`). -/
def pySplitPred (p : Char → Bool) (s : Str) : List Str := pySplitAux p [] s

/-- Delimiters of the token split in src/arxiv_fetcher.py: `[+,\s]+`. -/
def isDelim (c : Char) : Bool := c = '+' || c = ',' || pyIsSpace c

/-- Fuelled pass of `pyReplace`; the fuel dominates the string length at
every call site, so the fuel-exhausted arm is never taken. -/
def pyReplaceFuel (pat rep : Str) : Nat → Str → Str
  | _, [] => []
  | 0, s => s
  | fuel + 1, c :: t =>
    if pat ≠ [] ∧ pat.isPrefixOf (c :: t) then
      rep ++ pyReplaceFuel pat rep fuel ((c :: t).drop pat.length)
    else
      c :: pyReplaceFuel pat rep fuel t

/-- Python `s.replace(pat, rep)` (all non-overlapping occurrences, left to
right).  For an empty pattern this model returns `s` unchanged; every use in
the repository has a non-empty pattern. -/
def pyReplace (s pat rep : Str) : Str := pyReplaceFuel pat rep s.length s

/-- Python `pat in s` (substring containment). -/
def strHasSub (s pat : Str) : Bool :=
  match s with
  | [] => pat.isEmpty
  | _ :: t => pat.isPrefixOf s || strHasSub t pat

/-- Python `s.rstrip("/")`. -/
def pyRstripSlash (s : Str) : Str :=
  (s.reverse.dropWhile (fun c => c = '/')).reverse

/-- Python `s.split(sep)` for a one-character separator: keeps empty pieces,
always returns a non-empty list. -/
def pySplitSep (d : Char) : Str → List Str
  | [] => [[]]
  | c :: t =>
    if c = d then [] :: pySplitSep d t
    else
      match pySplitSep d t with
      | [] => [[c]]
      | h :: r => (c :: h) :: r

/-- Python `s.removeprefix(p)`. -/
def pyRemovePrefix (s p : Str) : Str :=
  if p.isPrefixOf s then s.drop p.length else s

/-- Python `str(n)` for a natural number. -/
def pyStr (n : Nat) : Str := (Nat.repr n).data

/-- Python `round` on rationals: round half to even (banker's rounding). -/
def pyRound (q : Rat) : Int :=
  let f : Int := q.floor
  let r2 : Rat := (q - (f : Rat)) * 2
  if r2 < 1 then f
  else if 1 < r2 then f + 1
  else if f % 2 = 0 then f else f + 1

/-- Python `f-string` formatting with `:.2f`, modelled exactly on rationals. -/
def pyFormat2 (q : Rat) : Str :=
  let n := pyRound (q * 100)
  let sign : Str := if n < 0 then str "-" else []
  let m := n.natAbs
  sign ++ (Nat.repr (m / 100)).data ++ str "." ++
    (if m % 100 < 10 then str "0" else []) ++ (Nat.repr (m % 100)).data

/-- Lexicographic (code-point) order on Python strings: `a <= b`. -/
def strLe : Str → Str → Bool
  | [], _ => true
  | _ :: _, [] => false
  | a :: as, b :: bs => if a < b then true else if b < a then false else strLe as bs

/-! ## src/arxiv_fetcher.py : query normalization -/

/-- The regex `^[a-zA-Z-]+$` character class. -/
def isAlphaHy (c : Char) : Bool := c.isAlpha || c = '-'

/-- The regex `^[a-zA-Z0-9-]+$` character class. -/
def isAlnumHy (c : Char) : Bool := c.isAlpha || c.isDigit || c = '-'

/-- `_ARXIV_CATEGORY_RE.match`: the token shape `^[a-zA-Z-]+\.[a-zA-Z0-9-]+$`.
Both classes exclude the dot, so a match splits uniquely at the first dot. -/
def isCatToken (s : Str) : Bool :=
  let a := s.takeWhile (fun c => c ≠ '.')
  match s.dropWhile (fun c => c ≠ '.') with
  | '.' :: b => !a.isEmpty && a.all isAlphaHy && !b.isEmpty && b.all isAlnumHy
  | _ => false

/-- The token list of a query: split the stripped query on `[+,\s]+`,
dropping empty tokens (src/arxiv_fetcher.py lines 28 and 44). -/
def queryTokens (q : Str) : List Str := pySplitPred isDelim (pyStrip q)

/-- `_extract_categories_from_query` (src/arxiv_fetcher.py lines 36-47). -/
def extractCategoriesFromQuery (q : Str) : Option (List Str) :=
  let query := pyStrip q
  if query = [] || query.contains ':' then none
  else
    let parts := pySplitPred isDelim query
    if parts ≠ [] && parts.all isCatToken then some parts else none

/-- `_normalize_arxiv_query_for_api` (src/arxiv_fetcher.py lines 13-33).
A raised `ValueError` is modelled as `Except.error`. -/
def normalizeArxivQueryForApi (q : Str) : Except Str Str :=
  let query := pyStrip q
  if query = [] then .error (str "Empty arXiv query")
  else if !query.contains ':' then
    let parts := pySplitPred isDelim query
    if parts ≠ [] && parts.all isCatToken then
      .ok (List.intercalate (str " OR ") (parts.map (fun p => str "cat:" ++ p)))
    else .ok (pyReplace query (str "+") (str " "))
  else .ok (pyReplace query (str "+") (str " "))

/-! ## src/arxiv_fetcher.py : result normalization -/

/-- The version-suffix regex `v\d+$`: does `s` end in `v` followed by at
least one digit? -/
def hasVersionSuffix (s : Str) : Bool :=
  let r := s.reverse
  let ds := r.takeWhile Char.isDigit
  !ds.isEmpty && (r.drop ds.length).head? = some 'v'

/-- `_ARXIV_VERSION_SUFFIX_RE.sub("", s)`: strip a trailing `v\d+`. -/
def stripVersion (s : Str) : Str :=
  if hasVersionSuffix s then
    (s.reverse.drop ((s.reverse.takeWhile Char.isDigit).length + 1)).reverse
  else s

/-- `_normalize_abstract` (src/arxiv_fetcher.py lines 61-62):
collapse whitespace to single spaces, via Python split/join. -/
def normalizeAbstract (s : Str) : Str :=
  List.intercalate (str " ") (pySplitPred pyIsSpace s)

/-- The `http://` to `https://` rewrite applied to `entry_id`
(src/arxiv_fetcher.py lines 71-72). -/
def httpsify (s : Str) : Str := pyReplace s (str "http://") (str "https://")

/-- A raw `arxiv.Result` provider record, with exactly the attributes the
repository reads.  `shortId = none` models `get_short_id()` raising;
`summary = none` models a missing abstract; `published = none` models a
missing publication timestamp.  Instants are integers (seconds), matching
comparison of timezone-aware datetimes. -/
structure RawResult where
  shortId : Option Str
  entryId : Str
  title : Str
  summary : Option Str
  authors : List Str
  published : Option Int
deriving DecidableEq, Repr

/-- `_base_arxiv_id` (src/arxiv_fetcher.py lines 50-58), with the negative
index `[-1]` modelled as a fallible operation (`IndexError` on an empty
list). -/
def baseArxivIdE (r : RawResult) : Except Str Str := do
  let shortId ←
    match r.shortId with
    | some s => pure s
    | none =>
      match (pySplitSep '/' (pyRstripSlash r.entryId)).getLast? with
      | some x => pure x
      | none => .error (str "IndexError")
  pure (stripVersion shortId)

/-- Total version of `_base_arxiv_id`; agreement with `baseArxivIdE` is
proved below (the split of a string on a separator is never empty). -/
def baseArxivId (r : RawResult) : Str :=
  let shortId :=
    match r.shortId with
    | some s => s
    | none => (pySplitSep '/' (pyRstripSlash r.entryId)).getLastD []
  stripVersion shortId

/-- The canonical paper record produced by `_result_to_dict`. -/
structure FPaper where
  id : Str
  title : Str
  abstract : Str
  authors : List Str
  url : Str
  link : Str
  published : Str
deriving DecidableEq, Repr

/-- `_result_to_dict` (src/arxiv_fetcher.py lines 65-74).  `dateIso` models
`datetime.date().isoformat()`, an external library function. -/
def resultToDict (dateIso : Int → Str) (r : RawResult) : FPaper :=
  { id := baseArxivId r
    title := r.title
    abstract := normalizeAbstract (r.summary.getD [])
    authors := r.authors
    url := httpsify r.entryId
    link := httpsify r.entryId
    published := match r.published with | some t => dateIso t | none => [] }

/-- Fallible version of `_result_to_dict`, propagating the only operation
that can raise (`[-1]` inside `_base_arxiv_id`). -/
def resultToDictE (dateIso : Int → Str) (r : RawResult) : Except Str FPaper := do
  let id ← baseArxivIdE r
  pure { resultToDict dateIso r with id := id }

/-- Re-application of the field normalizers of `_result_to_dict` to an
already-normalized paper (used to state idempotence). -/
def reNormalize (p : FPaper) : FPaper :=
  { p with
    id := stripVersion p.id
    abstract := normalizeAbstract p.abstract
    url := httpsify p.url
    link := httpsify p.link }

/-! ## src/arxiv_fetcher.py : feed discovery and daily fetch -/

/-- One feedparser entry, with the attributes `_extract_new_ids` reads.
`publishedParsed`/`updatedParsed` are the instants denoted by the
`published_parsed`/`updated_parsed` structs (`none` when the field is
missing or unparseable). -/
structure FeedEntry where
  announceType : Option Str
  publishedParsed : Option Int
  updatedParsed : Option Int
  id : Str
deriving DecidableEq, Repr

/-- A parsed feed: its title (for error sniffing) and its entries. -/
structure Feed where
  title : Str
  entries : List FeedEntry
deriving DecidableEq, Repr

/-- The per-entry filter of `_extract_new_ids` (src/arxiv_fetcher.py lines
87-97), processing entries in feed order. -/
def extractIdsLoop (onlyNew : Bool) (cutoff : Option Int) : List FeedEntry → List Str
  | [] => []
  | e :: rest =>
    if onlyNew && !(e.announceType = some (str "new") || e.announceType = none) then
      extractIdsLoop onlyNew cutoff rest
    else
      match cutoff with
      | some c =>
        match e.publishedParsed.or e.updatedParsed with
        | some t =>
          if t < c then extractIdsLoop onlyNew cutoff rest
          else pyRemovePrefix e.id (str "oai:arXiv.org:") :: extractIdsLoop onlyNew cutoff rest
        | none => pyRemovePrefix e.id (str "oai:arXiv.org:") :: extractIdsLoop onlyNew cutoff rest
      | none => pyRemovePrefix e.id (str "oai:arXiv.org:") :: extractIdsLoop onlyNew cutoff rest

/-- The cutoff of `_extract_new_ids` (lines 82-84): active whenever a
non-negative `days_back` is given.  `now` is an instant in seconds and
`timedelta(days=d)` is `d * 86400` seconds. -/
def rssCutoff (now : Int) (daysBack : Option Int) : Option Int :=
  match daysBack with
  | some d => if 0 ≤ d then some (now - d * 86400) else none
  | none => none

/-- The cutoff of the api branch of `fetch_daily_arxiv` (lines 135-137):
active only when `only_new` is set and a non-negative `days_back` is given. -/
def apiCutoff (onlyNew : Bool) (now : Int) (daysBack : Option Int) : Option Int :=
  if onlyNew then rssCutoff now daysBack else none

/-- The staleness test of the api branch (lines 150 and 167):
`cutoff and res.published and res.published < cutoff`. -/
def isStale (cutoff : Option Int) (r : RawResult) : Bool :=
  match cutoff, r.published with
  | some c, some t => t < c
  | _, _ => false

/-- The stream-consumption loop of the api branch: take results until the
first stale one, then `break` (src/arxiv_fetcher.py lines 149-151 and
166-168). -/
def consumeFresh (cutoff : Option Int) : List RawResult → List RawResult
  | [] => []
  | r :: rest =>
    if isStale cutoff r then [] else r :: consumeFresh cutoff rest

/-- `dedup.setdefault(paper.id, paper)` on an insertion-ordered map,
modelled as a list in insertion order (line 153). -/
def setdefaultIns (acc : List FPaper) (p : FPaper) : List FPaper :=
  if acc.any (fun q => q.id = p.id) then acc else acc ++ [p]

/-- The order of the descending sort of line 156: `a` may come before `b`
when `a.published >= b.published` (string comparison). -/
def publishedGe (a b : FPaper) : Prop := strLe b.published a.published = true

instance : DecidableRel publishedGe := fun a b => by
  unfold publishedGe; infer_instance

/-- The descending sort of line 156: a stable sort with respect to
`publishedGe`, which is exactly `merged.sort(key=..., reverse=True)`. -/
def sortPublishedDesc (l : List FPaper) : List FPaper :=
  List.insertionSort publishedGe l

/-- The category branch of the api source (src/arxiv_fetcher.py lines
139-157).  `streams` gives, per category in order, the date-descending
result stream the search collaborator yields for that category. -/
def fetchApiCategories (dateIso : Int → Str) (cutoff : Option Int)
    (maxResults : Int) (streams : List (List RawResult)) : List FPaper :=
  let dedup := streams.foldl
    (fun acc s => (consumeFresh cutoff s).foldl
      (fun a r => setdefaultIns a (resultToDict dateIso r)) acc) []
  let merged := sortPublishedDesc dedup
  if 0 < maxResults then merged.take maxResults.toNat else merged

/-- The literal branch of the api source (src/arxiv_fetcher.py lines
159-170): one stream, consumed with the same staleness rule. -/
def fetchApiLiteral (dateIso : Int → Str) (cutoff : Option Int)
    (stream : List RawResult) : List FPaper :=
  (consumeFresh cutoff stream).map (resultToDict dateIso)

/-- A network interaction performed by `fetch_daily_arxiv`, in order. -/
inductive NetEvent where
  | feedParse (url : Str)
  | apiSearch (query : Str)
  | idLookup (ids : List Str)
deriving DecidableEq, Repr

/-- The external world `fetch_daily_arxiv` interacts with: the current
instant, date formatting, the feed fetcher, the search collaborator
(query to result stream) and the id-batch metadata lookup. -/
structure FetchEnv where
  now : Int
  dateIso : Int → Str
  feed : Str → Feed
  search : Str → List RawResult
  idLookup : List Str → List RawResult

/-- Batch the surviving ids into groups of 20 (lines 128-131). -/
def batches20 (ids : List Str) : List (List Str) :=
  (List.range ((ids.length + 19) / 20)).map (fun i => (ids.drop (20 * i)).take 20)

/-- `fetch_daily_arxiv` (src/arxiv_fetcher.py lines 101-172), returning the
result (or raised error) together with the ordered trace of network
interactions. -/
def fetchDailyArxiv (env : FetchEnv) (q : Str) (maxResults : Int)
    (onlyNew : Bool) (daysBack : Option Int) (source : Str) :
    Except Str (List FPaper) × List NetEvent :=
  if source = str "rss" then
    let url := str "https://rss.arxiv.org/atom/" ++ q
    let feed := env.feed url
    let ev := [NetEvent.feedParse url]
    if strHasSub feed.title (str "Feed error for query") then
      (.error (str "Invalid arXiv query: " ++ q), ev)
    else
      let ids := extractIdsLoop onlyNew (rssCutoff env.now daysBack) feed.entries
      if ids = [] then (.ok [], ev)
      else
        let ids := if 0 < maxResults then ids.take maxResults.toNat else ids
        let bs := batches20 ids
        (.ok ((bs.map (fun b => (env.idLookup b).map (resultToDict env.dateIso))).flatten),
          ev ++ bs.map NetEvent.idLookup)
  else if source = str "api" then
    let cutoff := apiCutoff onlyNew env.now daysBack
    match extractCategoriesFromQuery q with
    | some categories =>
      (.ok (fetchApiCategories env.dateIso cutoff maxResults
          (categories.map (fun c => env.search (str "cat:" ++ c)))),
        categories.map (fun c => NetEvent.apiSearch (str "cat:" ++ c)))
    | none =>
      match normalizeArxivQueryForApi q with
      | .error e => (.error e, [])
      | .ok apiQuery =>
        (.ok (fetchApiLiteral env.dateIso cutoff (env.search apiQuery)),
          [NetEvent.apiSearch apiQuery])
  else (.error (str "Unknown arXiv source: " ++ q), [])

/-! ## src/wechat.py : rendering -/

/-- An enriched paper as consumed by the WeChat renderer: a dict whose keys
may be absent (`none`).  `score` is numeric when present (`isinstance`
check in the source). -/
structure WPaper where
  title : Option Str
  link : Option Str
  url : Option Str
  score : Option Rat
  abstract : Option Str
  abstractZh : Option Str
  tldr : Option Str
  authors : Option (List Str)
  tags : Option (List Str)
deriving DecidableEq, Repr

/-- `_score_to_stars` (src/wechat.py lines 6-11). -/
def scoreToStars (score : Option Rat) : Str :=
  match score with
  | none => str "N/A"
  | some q =>
    let level := max 1 (min 5 (pyRound (q * 5)))
    List.replicate level.toNat '⭐'

/-- `_short_link` (src/wechat.py lines 14-19). -/
def shortLink (url : Str) : Str :=
  if url = [] then []
  else pyRstripSlash (pyReplace (pyReplace url (str "https://") []) (str "http://") [])

/-- The link resolution of `_paper_md` (src/wechat.py line 29):
`paper.get("link") or paper.get("url")`, with a missing or falsy field
giving the empty string. -/
def paperMdLink (paper : WPaper) : Str :=
  if paper.link.getD [] ≠ [] then paper.link.getD [] else paper.url.getD []

/-- The title line of `_paper_md` (src/wechat.py lines 24-27 and 59-62). -/
def paperMdTitleLine (idx : Nat) (paper : WPaper) : Str :=
  let title0 := paper.title.getD (str "Untitled")
  let title := if title0.length > 200 then title0.take 200 ++ str "..." else title0
  let link := paperMdLink paper
  if link ≠ [] then str "**" ++ pyStr idx ++ str ". [" ++ title ++ str "](" ++ link ++ str ")**"
  else str "**" ++ pyStr idx ++ str ". " ++ title ++ str "**"

/-- The score-and-link line of `_paper_md` (src/wechat.py lines 30-32 and
64-71). -/
def paperMdScoreLine (paper : WPaper) : Str :=
  let link := paperMdLink paper
  let scoreText := match paper.score with | some q => pyFormat2 q | none => str "N/A"
  let scoreLine0 := scoreToStars paper.score ++ str " 相关度: " ++ scoreText
  let linkText0 := shortLink link
  if linkText0 ≠ [] then
    let linkText := if linkText0.length > 50 then linkText0.take 50 ++ str "..." else linkText0
    scoreLine0 ++ str " | [" ++ linkText ++ str "](" ++ link ++ str ")"
  else scoreLine0

/-- The title, score, author and keyword lines of `_paper_md`
(src/wechat.py lines 36-79). -/
def paperMdHeadLines (idx : Nat) (paper : WPaper) : List Str :=
  let authors := paper.authors.getD []
  let tags := paper.tags.getD []
  let keywords0 := List.intercalate (str ", ") (tags.take 4)
  let keywords := if keywords0.length > 150 then keywords0.take 150 ++ str "..." else keywords0
  let authorLine0 :=
    if authors ≠ [] then
      if authors.length ≤ 3 then List.intercalate (str ", ") authors
      else List.intercalate (str ", ") (authors.take 2 ++ [str "..."] ++ [authors.getLastD []])
    else []
  let authorLine := if authorLine0.length > 200 then authorLine0.take 200 ++ str "..." else authorLine0
  let lines := [paperMdTitleLine idx paper, paperMdScoreLine paper]
  let lines := if authorLine ≠ [] then lines ++ [str "**作者:** " ++ authorLine] else lines
  if keywords ≠ [] then lines ++ [str "**关键词:** " ++ keywords] else lines

/-- The body line of `_paper_md` (src/wechat.py lines 81-94): prefer the
TLDR, else the translated abstract, else the raw abstract, truncated to
`maxAbstractLength`; no line at all when all three are empty. -/
def paperMdBodyLine (paper : WPaper) (maxAbstractLength : Nat) : Option Str :=
  let abstract := paper.abstract.getD []
  let abstractZh := paper.abstractZh.getD []
  let tldr := paper.tldr.getD []
  if tldr ≠ [] then
    let tldrText0 := pyReplace tldr (str "TLDR: ") []
    let tldrText := if tldrText0.length > maxAbstractLength
      then tldrText0.take maxAbstractLength ++ str "..." else tldrText0
    some (str "**TLDR:** " ++ tldrText)
  else if abstractZh ≠ [] then
    let az := if abstractZh.length > maxAbstractLength
      then abstractZh.take maxAbstractLength ++ str "..." else abstractZh
    some (str "**摘要(中文):** " ++ az)
  else if abstract ≠ [] then
    let ab := if abstract.length > maxAbstractLength
      then abstract.take maxAbstractLength ++ str "..." else abstract
    some (str "**摘要:** " ++ ab)
  else none

/-- `_paper_md` (src/wechat.py lines 22-96): render one paper to Markdown.
Python truthiness of the optional string fields is modelled by mapping a
missing field to the empty string first (`paper.get(k) or ""`). -/
def paperMd (idx : Nat) (paper : WPaper) (maxAbstractLength : Nat := 500) : Str :=
  List.intercalate (str "\n")
    (paperMdHeadLines idx paper ++ (paperMdBodyLine paper maxAbstractLength).toList)

/-- The truncation marker appended by the hard-truncation branches. -/
def truncMarker : Str := str "\n\n*（内容过长已截断）*"

/-- The per-message header of `build_single_paper_message` (line 152). -/
def singleHeader (idx total : Nat) (title dateStr : Str) : Str :=
  str "# " ++ title ++ str "\n\n📚 **第 " ++ pyStr idx ++ str "/" ++ pyStr total ++
    str " 篇** | " ++ dateStr ++ str "\n\n"

/-- The abstract-length ladder of `build_single_paper_message` (line 159). -/
def abstractLadder : List Nat := [600, 400, 250, 150, 100]

/-- `build_single_paper_message` (src/wechat.py lines 138-182), returning
the markdown content of the message.  The loop tries the ladder and breaks
on the first rendering of length at most 4096; the for-else branch rebuilds
at 100 and force-truncates; a final verification truncates once more. -/
def buildSinglePaperContent (idx total : Nat) (paper : WPaper)
    (title dateStr : Str) : Str :=
  let header := singleHeader idx total title dateStr
  let content :=
    match abstractLadder.find? (fun n => (header ++ paperMd idx paper n).length ≤ 4096) with
    | some n => header ++ paperMd idx paper n
    | none =>
      let c := header ++ paperMd idx paper 100
      if c.length > 4096 then c.take (4096 - 20) ++ truncMarker else c
  if content.length > 4096 then content.take (4096 - 20) ++ truncMarker else content

/-- A rendering of the claim's own words for the ladder of
`build_single_paper_message`: degrade the abstract length until the
rendered header-plus-paper fits the soft budget, i.e. stays below the hard
limit by the declared 50-character safety margin (the `available_length`
computation of src/wechat.py lines 154-156 reserves 50 characters). -/
def buildSinglePaperContentSpecSoft (idx total : Nat) (paper : WPaper)
    (title dateStr : Str) : Str :=
  let header := singleHeader idx total title dateStr
  let content :=
    match abstractLadder.find? (fun n => (header ++ paperMd idx paper n).length ≤ 4096 - 50) with
    | some n => header ++ paperMd idx paper n
    | none =>
      let c := header ++ paperMd idx paper 100
      if c.length > 4096 then c.take (4096 - 20) ++ truncMarker else c
  if content.length > 4096 then content.take (4096 - 20) ++ truncMarker else content

/-- `build_summary_message` (src/wechat.py lines 185-205): the content of
the summary-only message. -/
def buildSummaryContent (title dateStr : Str) (total : Nat) : Str :=
  str "# " ++ title ++ str "\n\nฅʕ•̫͡•ʔฅ ◔.̮◔✧ (•̀ᴗ• ) ArXiv 小助手来啦！\n\n📅 **日期:** " ++
    dateStr ++ str "\n📚 **找到论文:** " ++ pyStr total ++
    str " 篇\n\n接下来将逐条推送每篇论文的详细信息..."

/-! ## src/wechat.py : chunking and delivery -/

/-- The block separator of `post_papers_separately` (line 277). -/
def sepStr : Str := str "\n\n---\n\n"

/-- Strip a trailing separator from the last part
(src/wechat.py lines 286-288 and 313-316). -/
def stripTrailSep (parts : List Str) : List Str :=
  match parts.getLast? with
  | none => parts
  | some lp =>
    parts.dropLast ++ [if sepStr.isSuffixOf lp then lp.take (lp.length - sepStr.length) else lp]

/-- The 1000-character re-check applied when a message is closed
(src/wechat.py lines 291-292 and 319-320). -/
def clamp1000 (m : Str) : Str :=
  if m.length > 1000 then m.take (1000 - 20) ++ truncMarker else m

/-- The chunking state of `post_papers_separately`: emitted messages, the
parts of the message being built, and the tracked running length. -/
structure ChunkState where
  msgs : List Str
  parts : List Str
  curlen : Nat
deriving Repr

/-- One iteration of the packing loop of `post_papers_separately`
(src/wechat.py lines 276-309) for one rendered paper block. -/
def chunkStep (title : Str) (st : ChunkState) (pc : Str) : ChunkState :=
  let pws := pc ++ sepStr
  let plen := pws.length
  if st.curlen + plen > 1000 then
    let msgs' :=
      if st.parts.length > 1 then
        st.msgs ++ [clamp1000 (stripTrailSep st.parts).flatten]
      else st.msgs
    if plen > 1000 then
      let tr := pc.take (1000 - 50) ++ truncMarker
      ⟨msgs', [tr], tr.length⟩
    else
      let nh := str "# " ++ title ++ str " (续)\n\n"
      ⟨msgs', [nh, pws], nh.length + plen⟩
  else ⟨st.msgs, st.parts ++ [pws], st.curlen + plen⟩

/-- The first-message header of `post_papers_separately` (line 271). -/
def chunkHeader (title dateStr : Str) (total : Nat) : Str :=
  str "# " ++ title ++ str "\n\nฅʕ•̫͡•ʔฅ ◔.̮◔✧ (•̀ᴗ• ) ArXiv 小助手来啦！" ++ dateStr ++
    str " 找到 **" ++ pyStr total ++ str "** 📚 篇论文：\n\n---\n\n"

/-- The message list built by `post_papers_separately` for a non-empty
paper list (src/wechat.py lines 259-321), before the final per-send
4096-character check. -/
def buildChunks (title dateStr : Str) (papers : List WPaper) : List Str :=
  let paperContents := (List.range papers.length).zipWith
    (fun i p => paperMd (i + 1) p 400) papers
  let header := chunkHeader title dateStr papers.length
  let st := paperContents.foldl (chunkStep title) ⟨[], [header], header.length⟩
  if st.parts ≠ [] then st.msgs ++ [clamp1000 (stripTrailSep st.parts).flatten] else st.msgs

/-- The final strict length check run on each message immediately before it
is posted (src/wechat.py lines 327-337). -/
def finalClamp (m : Str) : Str :=
  let m1 := if m.length > 4096 then m.take 4050 ++ truncMarker else m
  if m1.length > 4096 then m1.take 4090 ++ str "..." else m1

/-- The contents posted by `post_papers_separately`: the zero-paper branch
posts one summary message directly (lines 252-257, with no length check);
otherwise every chunked message passes `finalClamp` inside the send loop. -/
def wechatMessages (title dateStr : Str) (papers : List WPaper) : List Str :=
  if papers.length = 0 then [buildSummaryContent title dateStr 0]
  else (buildChunks title dateStr papers).map finalClamp

/-- One iteration of the send loop: clamp, then attempt the send; a raised
transport error is caught (`true` = delivered, `false` = failure logged). -/
def sendOne (send : Str → Except Str Unit) (m : Str) : Str × Bool :=
  let m' := finalClamp m
  (m', match send m' with | .ok _ => true | .error _ => false)

/-- The send loop of `post_papers_separately` (src/wechat.py lines
323-355): each message is tried in order; the `except` branch catches a
failure and continues with the next message. -/
def deliverLoop (send : Str → Except Str Unit) : List Str → List (Str × Bool)
  | [] => []
  | m :: rest => sendOne send m :: deliverLoop send rest

/-! ## Concrete inputs used by witnesses and counterexamples -/

/-- A concrete date-formatting collaborator for closed instances. -/
def dateIso0 : Int → Str := fun t => pyStr t.toNat

/-- A concrete rendering of `datetime.now().strftime` (11 code points). -/
def dateStr0 : Str := str "2026年10月12日"

/-- A paper with a long abstract; together with `bigTitleC3` its rendering
at ladder step 600 has 4066 characters: at most the hard limit 4096, but
above the soft budget 4096 - 50, while ladder step 400 gives 3866. -/
def cexPaperC3 : WPaper where
  title := some (str "T")
  link := none
  url := none
  score := none
  abstract := some (List.replicate 700 'a')
  abstractZh := none
  tldr := none
  authors := none
  tags := none

/-- The 3400-character configured title of the C3 counterexample; the
message header embeds it without any cap. -/
def bigTitleC3 : Str := List.replicate 3400 'T' 

/-- A small paper with a TLDR, for the C3 witness. -/
def witPaperC3 : WPaper where
  title := some (str "T")
  link := none
  url := none
  score := none
  abstract := some (str "abs")
  abstractZh := none
  tldr := some (str "TLDR: tiny")
  authors := none
  tags := none

/-- A search result published at instant 50, stale for any cutoff above 50. -/
def rOldC5 : RawResult where
  shortId := some (str "1111.0001")
  entryId := str "http://arxiv.org/abs/1111.0001v1"
  title := str "old"
  summary := none
  authors := []
  published := some 50

/-- A search result streamed after `rOldC5`, published at instant 60. -/
def rNewC5 : RawResult where
  shortId := some (str "1111.0002")
  entryId := str "http://arxiv.org/abs/1111.0002v1"
  title := str "new"
  summary := none
  authors := []
  published := some 60

/-- An environment whose search stream is date-descending: `rNewC5`
(published 60) then `rOldC5` (published 50), with the current instant at
100 — so both results are older than now minus a zero-day window. -/
def envC5 : FetchEnv where
  now := 100
  dateIso := dateIso0
  feed := fun _ => ⟨[], []⟩
  search := fun _ => [rNewC5, rOldC5]
  idLookup := fun _ => []

/-- A benign environment: the feed has a harmless title and no entries. -/
def envBenignC6 : FetchEnv where
  now := 0
  dateIso := dateIso0
  feed := fun _ => ⟨str "ArXiv Query: all", []⟩
  search := fun _ => []
  idLookup := fun _ => []

/-- A well-formed provider record for the C4 witness. -/
def rWitC4 : RawResult where
  shortId := some (str "2401.01234v2")
  entryId := str "http://arxiv.org/abs/2401.01234v2"
  title := str "A Paper"
  summary := some (str "  two   words ")
  authors := [str "Ada"]
  published := some 0

/-- Stream results for the C2 witness: `sB1C2` duplicates the id of
`sA1C2` with different attributes. -/
def sA1C2 : RawResult where
  shortId := some (str "2401.00001v1")
  entryId := str "http://arxiv.org/abs/2401.00001v1"
  title := str "first seen"
  summary := none
  authors := []
  published := some 10

/-- Second result of the first C2 stream. -/
def sA2C2 : RawResult where
  shortId := some (str "2401.00002v1")
  entryId := str "http://arxiv.org/abs/2401.00002v1"
  title := str "second"
  summary := none
  authors := []
  published := some 5

/-- Duplicate of `sA1C2` (same base id) seen later in another stream. -/
def sB1C2 : RawResult where
  shortId := some (str "2401.00001v2")
  entryId := str "http://arxiv.org/abs/2401.00001v2"
  title := str "dup, must not overwrite"
  summary := none
  authors := []
  published := some 12

/-- The category streams of the C2 witness. -/
def streamsC2 : List (List RawResult) := [[sA1C2, sA2C2], [sB1C2]]

/-- Messages for the C9 witness. -/
def msgAC9 : Str := str "message one"

/-- Second message for the C9 witness. -/
def msgBC9 : Str := str "message two"

/-- A transport that fails exactly on the first witness message. -/
def sendC9 : Str → Except Str Unit :=
  fun m => if m = msgAC9 then .error (str "transport down") else .ok ()

/-- A feed entry with no parseable published or updated timestamp. -/
def entC10 : FeedEntry where
  announceType := some (str "new")
  publishedParsed := none
  updatedParsed := none
  id := str "oai:arXiv.org:2401.09999"

/-- A small paper for the C1 witness. -/
def witPaperC1 : WPaper where
  title := some (str "A short paper")
  link := none
  url := none
  score := none
  abstract := some (str "short abstract")
  abstractZh := none
  tldr := none
  authors := none
  tags := none

/-- The oversized title of the C1 counterexample (4100 characters). -/
def bigTitleC1 : Str := List.replicate 4100 'a'

/-! ## Helper lemmas : lengths and clamps -/

theorem truncMarker_length : truncMarker.length = 13 := rfl

theorem finalClamp_length_le (m : Str) : (finalClamp m).length ≤ 4096 := by
  have clampAux : ∀ l : Str,
      (if l.length > 4096 then l.take 4090 ++ str "..." else l).length ≤ 4096 := by
    intro l
    split
    · have h2 := List.length_take_le 4090 l
      have h3 : (str "...").length = 3 := rfl
      simp only [List.length_append]
      omega
    · rename_i h
      omega
  unfold finalClamp
  exact clampAux _

/-! ## Helper lemmas : pySplitSep is never empty -/

theorem pySplitSep_ne_nil (d : Char) (s : Str) : pySplitSep d s ≠ [] := by
  induction s with
  | nil => simp [pySplitSep]
  | cons c t ih =>
    simp only [pySplitSep]
    split
    · simp
    · cases h : pySplitSep d t with
      | nil => exact absurd h ih
      | cons a r => simp

/-! ## Helper lemmas : intercalate -/

theorem intercalate_cons2 (sep a b : Str) (t : List Str) :
    List.intercalate sep (a :: b :: t) = a ++ (sep ++ List.intercalate sep (b :: t)) := by
  simp [List.intercalate, List.intersperse]

theorem intercalate_append_last (sep x : Str) (l : List Str) (h : l ≠ []) :
    List.intercalate sep (l ++ [x]) = List.intercalate sep l ++ sep ++ x := by
  induction l with
  | nil => exact absurd rfl h
  | cons a t ih =>
    cases t with
    | nil => simp [intercalate_cons2, List.intercalate]
    | cons b t2 =>
      have h2 : b :: t2 ≠ [] := by simp
      calc List.intercalate sep ((a :: b :: t2) ++ [x])
          = a ++ (sep ++ List.intercalate sep ((b :: t2) ++ [x])) := intercalate_cons2 ..
        _ = a ++ (sep ++ (List.intercalate sep (b :: t2) ++ sep ++ x)) := by rw [ih h2]
        _ = List.intercalate sep (a :: b :: t2) ++ sep ++ x := by
              rw [intercalate_cons2]; simp [List.append_assoc]

/-! ## Helper lemmas : the string order -/

theorem strLe_total (a b : Str) : strLe a b = true ∨ strLe b a = true := by
  induction a generalizing b with
  | nil => left; rfl
  | cons c as ih =>
    cases b with
    | nil => right; rfl
    | cons d bs =>
      by_cases h1 : c < d
      · left; simp [strLe, h1]
      · by_cases h2 : d < c
        · right; simp [strLe, h2]
        · rcases ih bs with h3 | h3
          · left; simp [strLe, h1, h2, h3]
          · right; simp [strLe, h1, h2, h3]

theorem strLe_trans {a b c : Str} (h1 : strLe a b = true) (h2 : strLe b c = true) :
    strLe a c = true := by
  induction a generalizing b c with
  | nil => rfl
  | cons x as ih =>
    cases b with
    | nil => simp [strLe] at h1
    | cons y bs =>
      cases c with
      | nil => simp [strLe] at h2
      | cons z cs =>
        simp only [strLe] at h1 h2 ⊢
        by_cases hxy : x < y
        · by_cases hyz : y < z
          · simp [lt_trans hxy hyz]
          · by_cases hzy : z < y
            · simp only [if_neg hyz, if_pos hzy] at h2
              exact absurd h2 (by simp)
            · have : y = z := le_antisymm (not_lt.mp hzy) (not_lt.mp hyz)
              subst this
              simp [hxy]
        · by_cases hyx : y < x
          · simp only [if_neg hxy, if_pos hyx] at h1
            exact absurd h1 (by simp)
          · have hxyeq : x = y := le_antisymm (not_lt.mp hyx) (not_lt.mp hxy)
            subst hxyeq
            by_cases hyz : x < z
            · simp [hyz]
            · by_cases hzy : z < x
              · simp only [if_neg hyz, if_pos hzy] at h2
                exact absurd h2 (by simp)
              · simp only [if_neg hxy, if_neg hyx] at h1
                simp only [if_neg hyz, if_neg hzy] at h2
                simp only [if_neg hyz, if_neg hzy]
                exact ih h1 h2

instance : IsTotal FPaper publishedGe :=
  ⟨fun a b => by unfold publishedGe; exact strLe_total b.published a.published⟩

instance : IsTrans FPaper publishedGe :=
  ⟨fun a b c hab hbc => by
    unfold publishedGe at hab hbc ⊢
    exact strLe_trans hbc hab⟩

/-! ## Helper lemmas : the dedup map -/

theorem setdefaultIns_foldl_mem (l : List FPaper) (acc : List FPaper) (p : FPaper)
    (hp : p ∈ l.foldl setdefaultIns acc) :
    p ∈ acc ∨ (p.id ∉ acc.map FPaper.id ∧ l.find? (fun q => q.id = p.id) = some p) := by
  induction l generalizing acc with
  | nil => exact Or.inl hp
  | cons r t ih =>
    simp only [List.foldl_cons] at hp
    have hrid : r.id ∈ (setdefaultIns acc r).map FPaper.id := by
      unfold setdefaultIns
      split
      · rename_i hany
        rcases List.any_eq_true.mp hany with ⟨q, hq, hqe⟩
        exact List.mem_map.mpr ⟨q, hq, of_decide_eq_true hqe⟩
      · simp
    rcases ih (setdefaultIns acc r) hp with hin | ⟨hid, hfind⟩
    · unfold setdefaultIns at hin
      split at hin
      · exact Or.inl hin
      · rename_i hany
        rcases List.mem_append.mp hin with h1 | h2
        · exact Or.inl h1
        · have hpr : p = r := by simpa using h2
          subst hpr
          refine Or.inr ⟨?_, ?_⟩
          · intro hmem
            rcases List.mem_map.mp hmem with ⟨q, hq, hqe⟩
            exact hany (List.any_eq_true.mpr ⟨q, hq, decide_eq_true hqe⟩)
          · exact List.find?_cons_of_pos _ (by simp)
    · have hsub : p.id ∉ acc.map FPaper.id := by
        intro hmem
        apply hid
        unfold setdefaultIns
        split
        · exact hmem
        · simp only [List.map_append, List.map_cons, List.map_nil]
          exact List.mem_append.mpr (Or.inl hmem)
      have hne : ¬ (r.id = p.id) := by
        intro he
        exact hid (he ▸ hrid)
      refine Or.inr ⟨hsub, ?_⟩
      rw [List.find?_cons_of_neg _ (by simp [hne])]
      exact hfind

theorem setdefaultIns_foldl_nodup (l : List FPaper) (acc : List FPaper)
    (h : (acc.map FPaper.id).Nodup) :
    ((l.foldl setdefaultIns acc).map FPaper.id).Nodup := by
  induction l generalizing acc with
  | nil => exact h
  | cons r t ih =>
    simp only [List.foldl_cons]
    apply ih
    unfold setdefaultIns
    split
    · exact h
    · rename_i hany
      simp only [List.map_append, List.map_cons, List.map_nil]
      rw [List.nodup_append]
      refine ⟨h, List.nodup_singleton _, ?_⟩
      intro x hx hx2
      have hxe : x = r.id := by simpa using hx2
      subst hxe
      rcases List.mem_map.mp hx with ⟨q, hq, hqe⟩
      exact hany (List.any_eq_true.mpr ⟨q, hq, decide_eq_true hqe⟩)

theorem mem_of_foldl_setdefaultIns {l : List FPaper} {p : FPaper}
    (hp : p ∈ l.foldl setdefaultIns []) : p ∈ l := by
  rcases setdefaultIns_foldl_mem l [] p hp with h | ⟨_, hfind⟩
  · simp at h
  · exact List.mem_of_find?_eq_some hfind

/-! ## Helper lemmas : stream consumption -/

theorem consumeFresh_eq_take_findIdx (cutoff : Option Int) (s : List RawResult) :
    consumeFresh cutoff s = s.take (s.findIdx (isStale cutoff)) := by
  induction s with
  | nil => rfl
  | cons r t ih =>
    simp only [consumeFresh, List.findIdx_cons]
    by_cases h : isStale cutoff r
    · simp [h]
    · simp only [h, Bool.false_eq_true, if_false, cond_false, List.take_succ_cons]
      rw [ih]

/-! ## Helper lemmas : the api-category fold -/

theorem fetchApiCategories_fold_eq (dateIso : Int → Str) (cutoff : Option Int)
    (streams : List (List RawResult)) (acc : List FPaper) :
    streams.foldl
      (fun acc s => (consumeFresh cutoff s).foldl
        (fun a r => setdefaultIns a (resultToDict dateIso r)) acc) acc
    = (((streams.map (consumeFresh cutoff)).flatten).map (resultToDict dateIso)).foldl
        setdefaultIns acc := by
  induction streams generalizing acc with
  | nil => rfl
  | cons s t ih =>
    simp only [List.foldl_cons, List.map_cons, List.flatten_cons, List.map_append,
      List.foldl_append]
    rw [ih]
    congr 1
    rw [List.foldl_map]

/-! ## Helper lemmas : the sort -/

theorem sortPublishedDesc_perm (l : List FPaper) : List.Perm (sortPublishedDesc l) l :=
  List.perm_insertionSort _ _

theorem sortPublishedDesc_sorted (l : List FPaper) :
    List.Sorted publishedGe (sortPublishedDesc l) :=
  List.sorted_insertionSort _ _

/-! ## Claim C2 -/

/-- C2: in the api-source category branch, every normalized paper id appears
exactly once in the output (the id projection of the output is duplicate
free); the first occurrence across the category streams wins and its
attributes are not overwritten (each output paper is exactly the first
record with its id in the concatenation of the consumed streams); and the
deduplicated set is sorted by published date descending and truncated to
the max-result count when that count is positive. -/
theorem c2_api_category_dedup (dateIso : Int → Str) (cutoff : Option Int)
    (maxResults : Int) (streams : List (List RawResult)) :
    ((fetchApiCategories dateIso cutoff maxResults streams).map FPaper.id).Nodup
    ∧ (∀ p ∈ fetchApiCategories dateIso cutoff maxResults streams,
        (((streams.map (consumeFresh cutoff)).flatten).map (resultToDict dateIso)).find?
          (fun q => q.id = p.id) = some p)
    ∧ List.Sorted publishedGe (fetchApiCategories dateIso cutoff maxResults streams)
    ∧ (0 < maxResults →
        (fetchApiCategories dateIso cutoff maxResults streams).length ≤ maxResults.toNat) := by
  have hfe : fetchApiCategories dateIso cutoff maxResults streams =
      (if 0 < maxResults then
        (sortPublishedDesc ((((streams.map (consumeFresh cutoff)).flatten).map
          (resultToDict dateIso)).foldl setdefaultIns [])).take maxResults.toNat
      else
        sortPublishedDesc ((((streams.map (consumeFresh cutoff)).flatten).map
          (resultToDict dateIso)).foldl setdefaultIns [])) := by
    unfold fetchApiCategories
    rw [fetchApiCategories_fold_eq]
  set consumed := ((streams.map (consumeFresh cutoff)).flatten).map (resultToDict dateIso)
    with hc
  set dedup := consumed.foldl setdefaultIns [] with hd
  have hperm := sortPublishedDesc_perm dedup
  have hsorted := sortPublishedDesc_sorted dedup
  have hnd : (dedup.map FPaper.id).Nodup := setdefaultIns_foldl_nodup _ _ (by simp)
  have hndS : ((sortPublishedDesc dedup).map FPaper.id).Nodup :=
    ((hperm.map FPaper.id).nodup_iff).mpr hnd
  have hmemS : ∀ p ∈ sortPublishedDesc dedup,
      consumed.find? (fun q => q.id = p.id) = some p := by
    intro p hp
    have hpd : p ∈ dedup := hperm.mem_iff.mp hp
    rcases setdefaultIns_foldl_mem consumed [] p hpd with h | ⟨_, hfind⟩
    · simp at h
    · exact hfind
  rw [hfe]
  by_cases hmr : 0 < maxResults
  · simp only [if_pos hmr]
    refine ⟨?_, ?_, ?_, ?_⟩
    · rw [List.map_take]
      exact hndS.sublist (List.take_sublist _ _)
    · intro p hp
      exact hmemS p ((List.take_sublist _ _).subset hp)
    · exact hsorted.sublist (List.take_sublist _ _)
    · intro _
      exact List.length_take_le _ _
  · simp only [if_neg hmr]
    exact ⟨hndS, hmemS, hsorted, fun h => absurd h hmr⟩

/-- Witness for C2 at a concrete instance: the paper whose id occurs in two
streams appears with the attributes of its first occurrence. -/
theorem c2_api_category_dedup_witness :
    (((streamsC2.map (consumeFresh none)).flatten).map (resultToDict dateIso0)).find?
      (fun q => q.id = (resultToDict dateIso0 sA1C2).id) = some (resultToDict dateIso0 sA1C2) :=
  (c2_api_category_dedup dateIso0 none 10 streamsC2).2.1
    (resultToDict dateIso0 sA1C2) (by decide)

/-! ## Claim C5 -/

/-- C5 (amended): in the api-source branches, with the cutoff the code
actually uses (now minus the freshness window, when a window is given AND
the only-new flag is set), each date-descending stream is consumed exactly
up to the first stale result, and every output paper arises from the
consumed prefix of some stream; the literal branch consumes its single
stream by the same rule. -/
theorem c5_api_early_stop (dateIso : Int → Str) (now : Int) (onlyNew : Bool)
    (daysBack : Option Int) (maxResults : Int) (streams : List (List RawResult))
    (stream : List RawResult) :
    (∀ s ∈ streams, consumeFresh (apiCutoff onlyNew now daysBack) s
        = s.take (s.findIdx (isStale (apiCutoff onlyNew now daysBack))))
    ∧ (∀ p ∈ fetchApiCategories dateIso (apiCutoff onlyNew now daysBack) maxResults streams,
        ∃ s ∈ streams, ∃ r ∈ consumeFresh (apiCutoff onlyNew now daysBack) s,
          p = resultToDict dateIso r)
    ∧ fetchApiLiteral dateIso (apiCutoff onlyNew now daysBack) stream
        = (stream.take (stream.findIdx (isStale (apiCutoff onlyNew now daysBack)))).map
            (resultToDict dateIso) := by
  refine ⟨fun s _ => consumeFresh_eq_take_findIdx _ s, ?_, ?_⟩
  · intro p hp
    set cutoff := apiCutoff onlyNew now daysBack
    have hp2 : p ∈ (((streams.map (consumeFresh cutoff)).flatten).map
        (resultToDict dateIso)).foldl setdefaultIns [] := by
      have hfe := fetchApiCategories_fold_eq dateIso cutoff streams ([] : List FPaper)
      unfold fetchApiCategories at hp
      rw [hfe] at hp
      by_cases hmr : 0 < maxResults
      · simp only [if_pos hmr] at hp
        exact (sortPublishedDesc_perm _).mem_iff.mp ((List.take_sublist _ _).subset hp)
      · simp only [if_neg hmr] at hp
        exact (sortPublishedDesc_perm _).mem_iff.mp hp
    have hp3 := mem_of_foldl_setdefaultIns hp2
    rcases List.mem_map.mp hp3 with ⟨r, hr, hre⟩
    rcases List.mem_flatten.mp hr with ⟨l, hl, hrl⟩
    rcases List.mem_map.mp hl with ⟨s, hs, hse⟩
    exact ⟨s, hs, r, hse ▸ hrl, hre.symm⟩
  · unfold fetchApiLiteral
    rw [consumeFresh_eq_take_findIdx]

/-- Witness for C5 at a concrete instance: with only-new set and a zero-day
window at instant 55, the date-descending stream (published 60 then 50) is
cut at the first stale result. -/
theorem c5_api_early_stop_witness :
    consumeFresh (apiCutoff true 55 (some 0)) [rNewC5, rOldC5]
      = [rNewC5, rOldC5].take
          ([rNewC5, rOldC5].findIdx (isStale (apiCutoff true 55 (some 0)))) :=
  (c5_api_early_stop dateIso0 55 true (some 0) 10 [[rNewC5, rOldC5]] []).1 _ (by simp)

/-- Counterexample for C5 as stated: the single category stream is
date-descending (published 60, then 50); with a freshness window given
(`days_back = 0`) but `only_new = False`, its first streamed result is
already older than now minus the window, yet consumption does not stop
there: the stale result and the result after it both appear in the
output. -/
theorem c5_counterexample :
    envC5.search (str "cat:cs.AI") = [rNewC5, rOldC5]
    ∧ rNewC5.published = some 60
    ∧ rOldC5.published = some 50
    ∧ isStale (some (envC5.now - 0 * 86400)) rNewC5 = true
    ∧ (fetchDailyArxiv envC5 (str "cs.AI") 10 false (some 0) (str "api")).1
        = Except.ok [resultToDict dateIso0 rNewC5, resultToDict dateIso0 rOldC5] := by
  exact ⟨rfl, rfl, rfl, rfl, rfl⟩

/-! ## Helper lemmas : equations of pySplitPred -/

theorem pySplitAux_word (p : Char → Bool) (t : Str) :
    ∀ cur : Str, cur ≠ [] →
      pySplitAux p cur t
        = (cur.reverse ++ t.takeWhile (fun x => !p x))
            :: pySplitAux p [] (t.dropWhile (fun x => !p x)) := by
  induction t with
  | nil =>
    intro cur hc
    simp [pySplitAux, List.isEmpty_iff, hc]
  | cons d t' ih =>
    intro cur hc
    by_cases hd : p d
    · simp only [pySplitAux, hd, if_pos, List.isEmpty_iff, hc, if_neg,
        List.takeWhile_cons, List.dropWhile_cons, Bool.not_eq_true']
      simp [hd, List.isEmpty_iff, hc, pySplitAux]
    · simp only [pySplitAux, hd, if_neg, List.takeWhile_cons, List.dropWhile_cons]
      rw [ih (d :: cur) (by simp)]
      simp [hd, List.append_assoc]

theorem pySplitPred_cons_pos {p : Char → Bool} {c : Char} (t : Str) (h : p c = true) :
    pySplitPred p (c :: t) = pySplitPred p t := by
  simp [pySplitPred, pySplitAux, h]

theorem pySplitPred_cons_neg {p : Char → Bool} {c : Char} (t : Str) (h : p c = false) :
    pySplitPred p (c :: t)
      = (c :: t.takeWhile (fun x => !p x)) :: pySplitPred p (t.dropWhile (fun x => !p x)) := by
  show pySplitAux p [] (c :: t) = _
  simp only [pySplitAux, h, Bool.false_eq_true, if_neg, List.isEmpty_nil]
  rw [pySplitAux_word p t [c] (by simp)]
  rfl

theorem pySplitPred_sound (p : Char → Bool) :
    ∀ (n : Nat) (s : Str), s.length ≤ n →
      ∀ w ∈ pySplitPred p s, w ≠ [] ∧ w.all (fun c => !p c) = true := by
  intro n
  induction n with
  | zero =>
    intro s hs w hw
    have hnil : s = [] := List.length_eq_zero.mp (Nat.le_zero.mp hs)
    subst hnil
    simp [pySplitPred, pySplitAux] at hw
  | succ m ih =>
    intro s hs w hw
    cases s with
    | nil => simp [pySplitPred, pySplitAux] at hw
    | cons c t =>
      by_cases hc : p c
      · rw [pySplitPred_cons_pos t hc] at hw
        exact ih t (by simp at hs; omega) w hw
      · rw [pySplitPred_cons_neg t (by simp [hc])] at hw
        rcases List.mem_cons.mp hw with hw1 | hw2
        · subst hw1
          refine ⟨by simp, ?_⟩
          simp only [List.all_cons, Bool.and_eq_true, Bool.not_eq_true']
          refine ⟨by simp [hc], ?_⟩
          rw [List.all_eq_true]
          intro x hx
          have := List.mem_takeWhile_imp hx
          simpa using this
        · have hlen : (t.dropWhile (fun x => !p x)).length ≤ m := by
            have h1 := (t.dropWhile_sublist (fun x => !p x)).length_le
            simp at hs
            omega
          exact ih _ hlen w hw2

theorem takeWhile_word_append {p : Char → Bool} {w : Str} (hall : w.all (fun c => !p c) = true)
    {d : Char} (hd : p d = true) (r : Str) :
    (w ++ d :: r).takeWhile (fun x => !p x) = w
    ∧ (w ++ d :: r).dropWhile (fun x => !p x) = d :: r := by
  induction w with
  | nil => simp [List.takeWhile_cons, List.dropWhile_cons, hd]
  | cons c w' ih =>
    simp only [List.all_cons, Bool.and_eq_true] at hall
    have h1 := ih hall.2
    simp only [List.cons_append, List.takeWhile_cons, List.dropWhile_cons, hall.1]
    simp [h1.1, h1.2, hall.1]

theorem takeWhile_word_self {p : Char → Bool} {w : Str} (hall : w.all (fun c => !p c) = true) :
    w.takeWhile (fun x => !p x) = w ∧ w.dropWhile (fun x => !p x) = [] := by
  induction w with
  | nil => simp
  | cons c w' ih =>
    simp only [List.all_cons, Bool.and_eq_true] at hall
    have h1 := ih hall.2
    simp [List.takeWhile_cons, List.dropWhile_cons, hall.1, h1.1, h1.2]

theorem pySplitPred_word {p : Char → Bool} {w : Str} (hne : w ≠ [])
    (hall : w.all (fun c => !p c) = true) : pySplitPred p w = [w] := by
  cases w with
  | nil => exact absurd rfl hne
  | cons c w' =>
    simp only [List.all_cons, Bool.and_eq_true] at hall
    rw [pySplitPred_cons_neg w' (by simpa using hall.1)]
    rcases takeWhile_word_self hall.2 with ⟨h1, h2⟩
    rw [h1, h2]
    rfl

theorem pySplitPred_word_append {p : Char → Bool} {w : Str} (hne : w ≠ [])
    (hall : w.all (fun c => !p c) = true) {d : Char} (hd : p d = true) (r : Str) :
    pySplitPred p (w ++ d :: r) = w :: pySplitPred p r := by
  cases w with
  | nil => exact absurd rfl hne
  | cons c w' =>
    simp only [List.all_cons, Bool.and_eq_true] at hall
    rw [List.cons_append, pySplitPred_cons_neg _ (by simpa using hall.1)]
    rcases takeWhile_word_append hall.2 hd r with ⟨h1, h2⟩
    rw [h1, h2, pySplitPred_cons_pos r hd]

theorem pySplitPred_intercalate {p : Char → Bool} {d : Char} (hd : p d = true)
    (ws : List Str) (hw : ∀ w ∈ ws, w ≠ [] ∧ w.all (fun c => !p c) = true) :
    pySplitPred p (List.intercalate [d] ws) = ws := by
  induction ws with
  | nil => rfl
  | cons w t ih =>
    rcases hw w (by simp) with ⟨hne, hall⟩
    cases t with
    | nil =>
      have : List.intercalate [d] [w] = w := by simp [List.intercalate]
      rw [this, pySplitPred_word hne hall]
    | cons w2 t2 =>
      rw [intercalate_cons2]
      have hrest : List.intercalate [d] (w2 :: t2) = List.intercalate [d] (w2 :: t2) := rfl
      have : w ++ ([d] ++ List.intercalate [d] (w2 :: t2))
          = w ++ d :: List.intercalate [d] (w2 :: t2) := by rfl
      rw [this, pySplitPred_word_append hne hall hd]
      rw [ih (fun x hx => hw x (by simp [hx]))]

theorem normalizeAbstract_idem (s : Str) :
    normalizeAbstract (normalizeAbstract s) = normalizeAbstract s := by
  unfold normalizeAbstract
  have hsp : str " " = [' '] := rfl
  rw [hsp]
  rw [pySplitPred_intercalate (by decide)
    (pySplitPred pyIsSpace s)
    (pySplitPred_sound pyIsSpace s.length s le_rfl)]

/-! ## Helper lemmas : equations of pyReplace -/

theorem pyReplaceFuel_congr (pat rep : Str) :
    ∀ (f1 : Nat), ∀ (f2 : Nat) (s : Str), s.length ≤ f1 → s.length ≤ f2 →
      pyReplaceFuel pat rep f1 s = pyReplaceFuel pat rep f2 s := by
  intro f1
  induction f1 with
  | zero =>
    intro f2 s h1 _
    have : s = [] := List.length_eq_zero.mp (Nat.le_zero.mp h1)
    subst this
    cases f2 <;> rfl
  | succ g1 ih =>
    intro f2 s h1 h2
    cases s with
    | nil => cases f2 <;> rfl
    | cons c t =>
      cases f2 with
      | zero => simp at h2
      | succ g2 =>
        simp only [pyReplaceFuel]
        split
        · rename_i h
          congr 1
          have hp : 0 < pat.length := List.length_pos.mpr h.1
          apply ih
          · simp only [List.length_drop, List.length_cons]
            simp only [List.length_cons] at h1
            omega
          · simp only [List.length_drop, List.length_cons]
            simp only [List.length_cons] at h2
            omega
        · congr 1
          apply ih
          · simp only [List.length_cons] at h1; omega
          · simp only [List.length_cons] at h2; omega

theorem pyReplace_cons (pat rep : Str) (c : Char) (t : Str) :
    pyReplace (c :: t) pat rep =
      if pat ≠ [] ∧ pat.isPrefixOf (c :: t) then
        rep ++ pyReplace ((c :: t).drop pat.length) pat rep
      else c :: pyReplace t pat rep := by
  have hstep : pyReplace (c :: t) pat rep =
      if pat ≠ [] ∧ pat.isPrefixOf (c :: t) then
        rep ++ pyReplaceFuel pat rep t.length ((c :: t).drop pat.length)
      else c :: pyReplaceFuel pat rep t.length t := rfl
  rw [hstep]
  by_cases h : pat ≠ [] ∧ pat.isPrefixOf (c :: t)
  · rw [if_pos h, if_pos h]
    congr 1
    exact pyReplaceFuel_congr pat rep t.length (((c :: t).drop pat.length).length)
      ((c :: t).drop pat.length)
      (by
        have hp : 0 < pat.length := List.length_pos.mpr h.1
        simp only [List.length_drop, List.length_cons]
        omega)
      le_rfl
  · rw [if_neg h, if_neg h]
    rfl

theorem pyReplace_of_not_sub (s pat rep : Str) (h : strHasSub s pat = false) :
    pyReplace s pat rep = s := by
  induction s with
  | nil => rfl
  | cons c t ih =>
    simp only [strHasSub, Bool.or_eq_false_iff] at h
    rw [pyReplace_cons]
    rw [if_neg (by intro hcon; rw [hcon.2] at h; exact absurd h.1 (by simp))]
    rw [ih h.2]

/-! ## Helper lemmas : httpsify leaves no http occurrence -/

theorem isPrefixOf_append_of_length_le (u : Str) :
    ∀ (a x : Str), u.length ≤ a.length → u.isPrefixOf (a ++ x) = u.isPrefixOf a := by
  induction u with
  | nil => intro a x _; simp [List.isPrefixOf]
  | cons c us ih =>
    intro a x h
    cases a with
    | nil => simp at h
    | cons b as =>
      simp only [List.cons_append, List.isPrefixOf]
      congr 1
      exact ih as x (by simpa using h)

theorem isSuffix_tail {v : Char} {vs P : Str} (h : (v :: vs) <:+ P) : vs <:+ P := by
  rcases h with ⟨pre, hp⟩
  exact ⟨pre ++ [v], by simpa [List.append_assoc] using hp⟩

theorem no_suffix_prefix_https (u : Str) (hu : u ≠ []) (hsuf : u <:+ str "http://")
    (X : Str) : u.isPrefixOf (str "https://" ++ X) = false := by
  have hlen : u.length ≤ 7 := by
    have h1 := hsuf.length_le
    simpa using h1
  rw [isPrefixOf_append_of_length_le u (str "https://") X (by simp [str]; omega)]
  have hmem : u ∈ (str "http://").tails := (List.mem_tails _ _).mpr hsuf
  have htails : (str "http://").tails
      = [str "http://", str "ttp://", str "tp://", str "p://", str "://",
         str "//", str "/", ([] : Str)] := by decide
  rw [htails] at hmem
  simp only [List.mem_cons, List.not_mem_nil, or_false] at hmem
  rcases hmem with h|h|h|h|h|h|h|h
  all_goals first
    | (subst h; decide)
    | (subst h; exact absurd rfl hu)

theorem replace_keep_head :
    ∀ (n : Nat) (t u : Str), t.length ≤ n → u ≠ [] → u <:+ str "http://" →
      u.isPrefixOf (pyReplace t (str "http://") (str "https://")) = true →
      u.isPrefixOf t = true := by
  intro n
  induction n with
  | zero =>
    intro t u ht hu _ hp
    have : t = [] := List.length_eq_zero.mp (Nat.le_zero.mp ht)
    subst this
    cases u with
    | nil => exact absurd rfl hu
    | cons v vs => simp [pyReplace, pyReplaceFuel, List.isPrefixOf] at hp
  | succ m ih =>
    intro t u ht hu hs hp
    cases t with
    | nil =>
      cases u with
      | nil => exact absurd rfl hu
      | cons v vs => simp [pyReplace, pyReplaceFuel, List.isPrefixOf] at hp
    | cons d t' =>
      rw [pyReplace_cons] at hp
      by_cases hcond : (str "http://") ≠ [] ∧ (str "http://").isPrefixOf (d :: t')
      · rw [if_pos hcond] at hp
        rw [no_suffix_prefix_https u hu hs _] at hp
        exact absurd hp (by simp)
      · rw [if_neg hcond] at hp
        cases u with
        | nil => exact absurd rfl hu
        | cons v vs =>
          simp only [List.isPrefixOf, Bool.and_eq_true] at hp ⊢
          rcases hp with ⟨hv, hvs⟩
          by_cases hvs' : vs = []
          · subst hvs'
            exact ⟨hv, by simp [List.isPrefixOf]⟩
          · have hstail : vs <:+ str "http://" := isSuffix_tail hs
            have hlt : t'.length ≤ m := by
              simp only [List.length_cons] at ht; omega
            exact ⟨hv, ih t' vs hlt hvs' hstail hvs⟩

theorem strHasSub_https_append (X : Str) :
    strHasSub (str "https://" ++ X) (str "http://") = strHasSub X (str "http://") := by
  show strHasSub ('h' :: 't' :: 't' :: 'p' :: 's' :: ':' :: '/' :: '/' :: X) (str "http://") = _
  simp [strHasSub, List.isPrefixOf, str]

theorem strHasSub_httpsify (s : Str) : strHasSub (httpsify s) (str "http://") = false := by
  suffices h : ∀ (n : Nat) (s : Str), s.length ≤ n →
      strHasSub (pyReplace s (str "http://") (str "https://")) (str "http://") = false by
    exact h s.length s le_rfl
  intro n
  induction n with
  | zero =>
    intro s hs
    have : s = [] := List.length_eq_zero.mp (Nat.le_zero.mp hs)
    subst this
    rfl
  | succ m ih =>
    intro s hs
    cases s with
    | nil => rfl
    | cons c t =>
      rw [pyReplace_cons]
      by_cases hcond : (str "http://") ≠ [] ∧ (str "http://").isPrefixOf (c :: t)
      · rw [if_pos hcond]
        rw [strHasSub_https_append]
        apply ih
        simp only [List.length_drop, List.length_cons]
        have h7 : (str "http://").length = 7 := rfl
        rw [h7]
        simp only [List.length_cons] at hs
        omega
      · rw [if_neg hcond]
        have hR : strHasSub (pyReplace t (str "http://") (str "https://")) (str "http://")
            = false := by
          apply ih
          simp only [List.length_cons] at hs
          omega
        simp only [strHasSub, hR, Bool.or_false]
        by_contra hcon
        rw [Bool.not_eq_false] at hcon
        have hc : c = 'h' ∧ (str "ttp://").isPrefixOf
            (pyReplace t (str "http://") (str "https://")) = true := by
          have : (str "http://").isPrefixOf (c :: pyReplace t (str "http://") (str "https://"))
              = (('h' == c) && (str "ttp://").isPrefixOf
                  (pyReplace t (str "http://") (str "https://"))) := rfl
          rw [this] at hcon
          simp only [Bool.and_eq_true] at hcon
          exact ⟨(beq_iff_eq.mp hcon.1).symm, hcon.2⟩
        have hsuf : (str "ttp://") <:+ str "http://" := ⟨str "h", rfl⟩
        have hpre := replace_keep_head m t (str "ttp://")
          (by simp only [List.length_cons] at hs; omega) (by simp [str]) hsuf hc.2
        apply hcond
        refine ⟨by simp [str], ?_⟩
        rw [hc.1]
        show (('h' == 'h') && (str "ttp://").isPrefixOf t) = true
        simp [hpre]

theorem httpsify_idem (s : Str) : httpsify (httpsify s) = httpsify s :=
  pyReplace_of_not_sub _ _ _ (strHasSub_httpsify s)

/-! ## Helper lemmas : id normalization -/

theorem stripVersion_of_no_suffix {s : Str} (h : hasVersionSuffix s = false) :
    stripVersion s = s := by
  simp [stripVersion, h]

theorem baseArxivIdE_eq (r : RawResult) : baseArxivIdE r = Except.ok (baseArxivId r) := by
  unfold baseArxivIdE baseArxivId
  cases hs : r.shortId with
  | some s => rfl
  | none =>
    cases hl : (pySplitSep '/' (pyRstripSlash r.entryId)).getLast? with
    | none =>
      have h1 : pySplitSep '/' (pyRstripSlash r.entryId) = [] :=
        List.getLast?_eq_none_iff.mp hl
      exact absurd h1 (pySplitSep_ne_nil _ _)
    | some x =>
      have h2 : (pySplitSep '/' (pyRstripSlash r.entryId)).getLastD [] = x := by
        rw [List.getLastD_eq_getLast?, hl]
        rfl
      simp only [hl, h2]
      rfl

theorem resultToDictE_eq (dateIso : Int → Str) (r : RawResult) :
    resultToDictE dateIso r = Except.ok (resultToDict dateIso r) := by
  unfold resultToDictE
  rw [baseArxivIdE_eq]
  rfl

/-! ## Claim C4 -/

/-- C4: the raw-record-to-canonical-paper mapping is pure and total (the
fallible version never raises and agrees with the total function), defaults
abstract and authors to empty when the raw fields are missing, and is
idempotent: on any record whose stripped id carries no residual version
suffix, re-running every field normalizer on the produced paper is the
identity. -/
theorem c4_result_normalizer (dateIso : Int → Str) (r : RawResult) :
    resultToDictE dateIso r = Except.ok (resultToDict dateIso r)
    ∧ (r.summary = none → (resultToDict dateIso r).abstract = [])
    ∧ (r.authors = [] → (resultToDict dateIso r).authors = [])
    ∧ (hasVersionSuffix (baseArxivId r) = false →
        reNormalize (resultToDict dateIso r) = resultToDict dateIso r) := by
  refine ⟨resultToDictE_eq dateIso r, ?_, ?_, ?_⟩
  · intro h
    simp only [resultToDict, h]
    rfl
  · intro h
    simp only [resultToDict, h]
  · intro h
    simp only [reNormalize, resultToDict]
    simp [stripVersion_of_no_suffix h, normalizeAbstract_idem, httpsify_idem]

/-- Witness for C4 at a concrete well-formed record: the produced paper is
a fixed point of all field normalizers. -/
theorem c4_result_normalizer_witness :
    hasVersionSuffix (baseArxivId rWitC4) = false
    ∧ reNormalize (resultToDict dateIso0 rWitC4) = resultToDict dateIso0 rWitC4 :=
  ⟨by decide, (c4_result_normalizer dateIso0 rWitC4).2.2.2 (by decide)⟩

/-! ## Claim C6 -/

/-- C6 (amended): in the api source branch, an empty or whitespace-only
query fails with the ValueError raised by the query normalizer before any
network interaction (the event trace is empty), and is never silently
defaulted; in the rss branch (see the counterexample) the raw query is
interpolated into the feed URL and fetched without prior validation. -/
theorem c6_empty_query_api (env : FetchEnv) (q : Str) (maxResults : Int)
    (onlyNew : Bool) (daysBack : Option Int) (h : pyStrip q = []) :
    fetchDailyArxiv env q maxResults onlyNew daysBack (str "api")
      = (.error (str "Empty arXiv query"), []) := by
  unfold fetchDailyArxiv
  rw [if_neg (by decide), if_pos rfl]
  have hcat : extractCategoriesFromQuery q = none := by
    unfold extractCategoriesFromQuery
    simp [h]
  have hnorm : normalizeArxivQueryForApi q = .error (str "Empty arXiv query") := by
    unfold normalizeArxivQueryForApi
    simp [h]
  simp only [hcat, hnorm]

/-- Witness for C6: a whitespace-only query in the api branch errors with
an empty network trace. -/
theorem c6_empty_query_api_witness :
    fetchDailyArxiv envBenignC6 (str "  ") 30 true (some 1) (str "api")
      = (.error (str "Empty arXiv query"), []) :=
  c6_empty_query_api envBenignC6 (str "  ") 30 true (some 1) (by decide)

/-- Counterexample for C6 as stated: with the rss source and the empty
query, the run performs a network call (the feed fetch appears in the
trace) and completes without any validation error. -/
theorem c6_counterexample :
    fetchDailyArxiv envBenignC6 (str "") 30 true (some 1) (str "rss")
      = (Except.ok [], [NetEvent.feedParse (str "https://rss.arxiv.org/atom/")]) := by
  rfl

/-! ## Claim C7 -/

/-- C7 (amended): a trimmed query with no colon whose token list (split on
plus, comma or whitespace) is non-empty and all of category shape is parsed
as exactly that ordered token list (and normalized to the OR-joined cat:
expression); any other query that is non-empty after trimming is treated as
a literal: every plus becomes a space and the rest passes through
unmodified. -/
theorem c7_query_classification (q : Str) :
    ((pyStrip q).contains ':' = false → queryTokens q ≠ [] →
      (queryTokens q).all isCatToken = true →
      extractCategoriesFromQuery q = some (queryTokens q)
        ∧ normalizeArxivQueryForApi q
            = .ok (List.intercalate (str " OR ")
                ((queryTokens q).map (fun p => str "cat:" ++ p))))
    ∧ (pyStrip q ≠ [] →
        ((pyStrip q).contains ':' = true ∨ queryTokens q = []
          ∨ (queryTokens q).all isCatToken = false) →
        extractCategoriesFromQuery q = none
          ∧ normalizeArxivQueryForApi q
              = .ok (pyReplace (pyStrip q) (str "+") (str " "))) := by
  constructor
  · intro hc ht ha
    have hne : pyStrip q ≠ [] := by
      intro h0
      apply ht
      unfold queryTokens
      rw [h0]
      rfl
    have hcm : ':' ∉ pyStrip q := by simpa using hc
    have htn : ¬ (pySplitPred isDelim (pyStrip q) = []) := by simpa [queryTokens] using ht
    have ham : ∀ x ∈ pySplitPred isDelim (pyStrip q), isCatToken x = true := by
      have h1 := List.all_eq_true.mp ha
      simpa [queryTokens] using h1
    have hbool : (decide (pySplitPred isDelim (pyStrip q) ≠ [])
        && (pySplitPred isDelim (pyStrip q)).all isCatToken) = true := by
      simp only [Bool.and_eq_true, decide_eq_true_eq, List.all_eq_true]
      exact ⟨htn, ham⟩
    constructor
    · unfold extractCategoriesFromQuery
      rw [if_neg (by simp [hne, hcm])]
      show (if (decide (pySplitPred isDelim (pyStrip q) ≠ [])
            && (pySplitPred isDelim (pyStrip q)).all isCatToken) = true
          then some (pySplitPred isDelim (pyStrip q)) else none) = some (queryTokens q)
      rw [if_pos hbool]
      rfl
    · unfold normalizeArxivQueryForApi
      rw [if_neg hne]
      rw [if_pos (by simp [hcm])]
      show (if (decide (pySplitPred isDelim (pyStrip q) ≠ [])
            && (pySplitPred isDelim (pyStrip q)).all isCatToken) = true
          then Except.ok (List.intercalate (str " OR ")
            ((pySplitPred isDelim (pyStrip q)).map (fun p => str "cat:" ++ p)))
          else Except.ok (pyReplace (pyStrip q) (str "+") (str " ")))
        = Except.ok (List.intercalate (str " OR ")
            ((queryTokens q).map (fun p => str "cat:" ++ p)))
      rw [if_pos hbool]
      rfl
  · intro hne hdis
    constructor
    · unfold extractCategoriesFromQuery
      by_cases hc2 : (pyStrip q).contains ':' = true
      · have hmm : ':' ∈ pyStrip q := by simpa using hc2
        rw [if_pos (by simp [hmm])]
      · simp only [Bool.not_eq_true] at hc2
        have hmm : ':' ∉ pyStrip q := by simpa using hc2
        rw [if_neg (by simp [hne, hmm])]
        rcases hdis with h | h | h
        · exact absurd h (by simp [hmm])
        · have h2 : pySplitPred isDelim (pyStrip q) = [] := by simpa [queryTokens] using h
          simp [h2]
        · have h2 : (pySplitPred isDelim (pyStrip q)).all isCatToken = false := by
            simpa [queryTokens] using h
          simp [h2]
    · unfold normalizeArxivQueryForApi
      rw [if_neg hne]
      by_cases hc2 : (pyStrip q).contains ':' = true
      · have hmm : ':' ∈ pyStrip q := by simpa using hc2
        rw [if_neg (by simp [hmm])]
      · simp only [Bool.not_eq_true] at hc2
        have hmm : ':' ∉ pyStrip q := by simpa using hc2
        rw [if_pos (by simp [hmm])]
        rcases hdis with h | h | h
        · exact absurd h (by simp [hmm])
        · have h2 : pySplitPred isDelim (pyStrip q) = [] := by simpa [queryTokens] using h
          simp [h2]
        · have h2 : (pySplitPred isDelim (pyStrip q)).all isCatToken = false := by
            simpa [queryTokens] using h
          simp [h2]

/-- Witness for C7: the category query of the spec example parses to its
ordered token list. -/
theorem c7_query_classification_witness :
    extractCategoriesFromQuery (str "cs.AI+cs.LG") = some [str "cs.AI", str "cs.LG"] := by
  have h := (c7_query_classification (str "cs.AI+cs.LG")).1 (by decide) (by decide) (by decide)
  rw [h.1]
  decide

/-- Counterexample for C7 as stated: the query "+" contains no colon and
every token of its (empty) token list vacuously matches the category
shape, yet the code does not parse it as the empty ordered category list:
it classifies it as a literal expression and decodes the plus to a space. -/
theorem c7_counterexample :
    (pyStrip (str "+")).contains ':' = false
    ∧ queryTokens (str "+") = []
    ∧ (queryTokens (str "+")).all isCatToken = true
    ∧ extractCategoriesFromQuery (str "+") = none
    ∧ normalizeArxivQueryForApi (str "+") = .ok (str " ") := by
  refine ⟨by decide, by decide, by decide, by decide, rfl⟩

/-! ## Claim C10 -/

/-- C10: in the rss path, a feed entry with no parseable published or
updated timestamp is never excluded by the cutoff filter: whenever it
passes the announce-type filter, its identifier (namespace prefix
stripped) is in the extracted id list, for any cutoff configuration. -/
theorem c10_rss_missing_timestamp (onlyNew : Bool) (cutoff : Option Int)
    (entries : List FeedEntry) (e : FeedEntry)
    (he : e ∈ entries) (hp : e.publishedParsed = none) (hu : e.updatedParsed = none)
    (ha : onlyNew = false ∨ e.announceType = some (str "new") ∨ e.announceType = none) :
    pyRemovePrefix e.id (str "oai:arXiv.org:") ∈ extractIdsLoop onlyNew cutoff entries := by
  induction entries with
  | nil => simp at he
  | cons x t ih =>
    rcases List.mem_cons.mp he with hex | het
    · subst hex
      have hann : ¬ ((onlyNew && !(e.announceType = some (str "new")
          || e.announceType = none)) = true) := by
        rcases ha with h | h | h <;> simp [h]
      unfold extractIdsLoop
      rw [if_neg hann]
      cases cutoff with
      | none => simp
      | some c =>
        rw [hp, hu]
        simp [Option.or]
    · unfold extractIdsLoop
      by_cases hx : (x.announceType = some (str "new") ∨ x.announceType = none)
      · rw [if_neg (by rcases hx with h | h <;> simp [h])]
        cases cutoff with
        | none => exact List.mem_cons_of_mem _ (ih het)
        | some c =>
          cases hor : x.publishedParsed.or x.updatedParsed with
          | none => simp only [hor]; exact List.mem_cons_of_mem _ (ih het)
          | some ts =>
            simp only [hor]
            by_cases hts : ts < c
            · rw [if_pos hts]
              exact ih het
            · rw [if_neg hts]
              exact List.mem_cons_of_mem _ (ih het)
      · have hx2 := not_or.mp hx
        by_cases hon : onlyNew = true
        · rw [if_pos (by simp [hon, hx2.1, hx2.2])]
          exact ih het
        · have hon2 : onlyNew = false := by simpa using hon
          rw [if_neg (by simp [hon2])]
          cases cutoff with
          | none => exact List.mem_cons_of_mem _ (ih het)
          | some c =>
            cases hor : x.publishedParsed.or x.updatedParsed with
            | none => simp only [hor]; exact List.mem_cons_of_mem _ (ih het)
            | some ts =>
              simp only [hor]
              by_cases hts : ts < c
              · rw [if_pos hts]
                exact ih het
              · rw [if_neg hts]
                exact List.mem_cons_of_mem _ (ih het)

/-- Witness for C10: a timestampless new-announcement entry is extracted
even with a cutoff configured. -/
theorem c10_rss_missing_timestamp_witness :
    pyRemovePrefix entC10.id (str "oai:arXiv.org:")
      ∈ extractIdsLoop true (some 0) [entC10] :=
  c10_rss_missing_timestamp true (some 0) [entC10] entC10 (by simp) rfl rfl
    (Or.inr (Or.inl rfl))

/-! ## Helper lemmas : summary message length -/

theorem buildSummaryContent_length (t d : Str) (n : Nat) :
    (buildSummaryContent t d n).length = 88 + t.length + d.length + (pyStr n).length := by
  unfold buildSummaryContent
  simp only [List.length_append]
  have e1 : (str "# ").length = 2 := rfl
  have e2 : (str "\n\nฅʕ•̫͡•ʔฅ ◔.̮◔✧ (•̀ᴗ• ) ArXiv 小助手来啦！\n\n📅 **日期:** ").length = 49 := rfl
  have e3 : (str "\n📚 **找到论文:** ").length = 13 := rfl
  have e4 : (str " 篇\n\n接下来将逐条推送每篇论文的详细信息...").length = 24 := rfl
  omega

/-! ## Claim C8 -/

/-- C8: with zero papers, delivery emits exactly one summary-only message,
never an empty list, and that message's content reports the count 0. -/
theorem c8_zero_papers (title dateStr : Str) :
    wechatMessages title dateStr [] = [buildSummaryContent title dateStr 0]
    ∧ (str "**找到论文:** 0 篇") <:+: buildSummaryContent title dateStr 0 := by
  constructor
  · rfl
  · unfold buildSummaryContent
    refine ⟨str "# " ++ title
      ++ str "\n\nฅʕ•̫͡•ʔฅ ◔.̮◔✧ (•̀ᴗ• ) ArXiv 小助手来啦！\n\n📅 **日期:** " ++ dateStr
      ++ str "\n📚 ", str "\n\n接下来将逐条推送每篇论文的详细信息...", ?_⟩
    simp only [List.append_assoc]
    congr 1

/-! ## Claim C9 -/

/-- C9: the send loop of `post_papers_separately` attempts every message:
the loop is extensionally the per-message send map, so the outcome at each
position is determined only by that message, and a failure at one position
never prevents later positions from being attempted. -/
theorem c9_delivery_continues (send : Str → Except Str Unit) (msgs : List Str) :
    deliverLoop send msgs = msgs.map (sendOne send)
    ∧ (deliverLoop send msgs).length = msgs.length
    ∧ ∀ i, i < msgs.length →
        (deliverLoop send msgs)[i]? = (msgs[i]?).map (sendOne send) := by
  have h1 : deliverLoop send msgs = msgs.map (sendOne send) := by
    induction msgs with
    | nil => rfl
    | cons m t ih => simp [deliverLoop, ih]
  refine ⟨h1, by rw [h1]; simp, ?_⟩
  intro i _
  rw [h1]
  exact List.getElem?_map ..

/-- Witness for C9: the transport fails on the first message, and the
second message is still attempted (and delivered). -/
theorem c9_delivery_continues_witness :
    (deliverLoop sendC9 [msgAC9, msgBC9])[0]? = some (finalClamp msgAC9, false)
    ∧ (deliverLoop sendC9 [msgAC9, msgBC9])[1]? = some (finalClamp msgBC9, true) := by
  have h := (c9_delivery_continues sendC9 [msgAC9, msgBC9]).2.2
  constructor
  · rw [h 0 (by decide)]
    decide
  · rw [h 1 (by decide)]
    decide

/-! ## Claim C1 -/

/-- C1 (amended): every message posted through the paper-chunking path has
content length at most the hard channel limit 4096, for every input; the
zero-paper summary-only message is posted without the final length check,
so its bound additionally needs the configured title and date to fit
(title plus date at most 4007 characters, i.e. summary at most 4096). -/
theorem c1_message_length (title dateStr : Str) (papers : List WPaper)
    (h : papers ≠ [] ∨ title.length + dateStr.length ≤ 4007) :
    ∀ m ∈ wechatMessages title dateStr papers, m.length ≤ 4096 := by
  intro m hm
  unfold wechatMessages at hm
  by_cases hp : papers.length = 0
  · rw [if_pos hp] at hm
    have hpe : papers = [] := List.length_eq_zero.mp hp
    have hme : m = buildSummaryContent title dateStr 0 := by simpa using hm
    subst hme
    rcases h with h1 | h2
    · exact absurd hpe h1
    · rw [buildSummaryContent_length]
      have h3 : (pyStr 0).length = 1 := rfl
      omega
  · rw [if_neg hp] at hm
    rcases List.mem_map.mp hm with ⟨x, _, hxe⟩
    rw [← hxe]
    exact finalClamp_length_le x

/-- Witness for C1: the zero-paper summary message for a short title is
within the limit. -/
theorem c1_message_length_witness :
    (buildSummaryContent (str "T") dateStr0 0).length ≤ 4096 :=
  c1_message_length (str "T") dateStr0 [] (Or.inr (by decide))
    (buildSummaryContent (str "T") dateStr0 0) (by simp [wechatMessages])

/-- Counterexample for C1 as stated: with the empty paper list and a
4100-character title, the single emitted message has 4200 characters,
exceeding the hard limit 4096 — the zero-paper branch posts the summary
without the final length check. -/
theorem c1_counterexample :
    wechatMessages bigTitleC1 dateStr0 [] = [buildSummaryContent bigTitleC1 dateStr0 0]
    ∧ (buildSummaryContent bigTitleC1 dateStr0 0).length = 4200
    ∧ 4096 < (buildSummaryContent bigTitleC1 dateStr0 0).length := by
  have hlen : (buildSummaryContent bigTitleC1 dateStr0 0).length = 4200 := by
    rw [buildSummaryContent_length]
    have h1 : bigTitleC1.length = 4100 := by
      unfold bigTitleC1
      rw [List.length_replicate]
    have h2 : dateStr0.length = 11 := rfl
    have h3 : (pyStr 0).length = 1 := rfl
    omega
  exact ⟨rfl, hlen, by omega⟩

/-! ## Helper lemmas : the single-message renderer -/

theorem paperMdHeadLines_ne_nil (idx : Nat) (p : WPaper) : paperMdHeadLines idx p ≠ [] := by
  have h : ∀ (c1 c2 : Prop) (i1 : Decidable c1) (i2 : Decidable c2) (au kw : Str),
      (if c2 then
        (if c1 then [paperMdTitleLine idx p, paperMdScoreLine p] ++ [au]
         else [paperMdTitleLine idx p, paperMdScoreLine p]) ++ [kw]
       else
        (if c1 then [paperMdTitleLine idx p, paperMdScoreLine p] ++ [au]
         else [paperMdTitleLine idx p, paperMdScoreLine p])) ≠ [] := by
    intro c1 c2 i1 i2 au kw
    split <;> split <;> simp
  unfold paperMdHeadLines
  exact h _ _ _ _ _ _

theorem paperMdBodyLine_tldr {p : WPaper} (h : p.tldr.getD [] ≠ []) (n : Nat) :
    ∃ rest, paperMdBodyLine p n = some (str "**TLDR:** " ++ rest) := by
  unfold paperMdBodyLine
  dsimp only
  rw [if_pos h]
  exact ⟨_, rfl⟩

theorem paperMdBodyLine_zh {p : WPaper} (h1 : p.tldr.getD [] = [])
    (h2 : p.abstractZh.getD [] ≠ []) (n : Nat) :
    ∃ rest, paperMdBodyLine p n = some (str "**摘要(中文):** " ++ rest) := by
  unfold paperMdBodyLine
  dsimp only
  rw [if_neg (by simp [h1]), if_pos h2]
  exact ⟨_, rfl⟩

theorem paperMdBodyLine_abs {p : WPaper} (h1 : p.tldr.getD [] = [])
    (h2 : p.abstractZh.getD [] = []) (h3 : p.abstract.getD [] ≠ []) (n : Nat) :
    ∃ rest, paperMdBodyLine p n = some (str "**摘要:** " ++ rest) := by
  unfold paperMdBodyLine
  dsimp only
  rw [if_neg (by simp [h1]), if_neg (by simp [h2]), if_pos h3]
  exact ⟨_, rfl⟩

theorem marker_infix_of_bodyLine {p : WPaper} {n : Nat} {mark rest : Str} (idx : Nat)
    (hb : paperMdBodyLine p n = some (mark ++ rest)) (pre : Str) :
    mark <:+: pre ++ paperMd idx p n := by
  unfold paperMd
  rw [hb]
  show mark <:+: pre ++ List.intercalate (str "\n") (paperMdHeadLines idx p ++ [mark ++ rest])
  rw [intercalate_append_last _ _ _ (paperMdHeadLines_ne_nil idx p)]
  refine ⟨pre ++ (List.intercalate (str "\n") (paperMdHeadLines idx p) ++ str "\n"), rest, ?_⟩
  simp [List.append_assoc]

/-! ## Claim C3 -/

/-- C3 (amended): rendering one paper into a single message prefers the
model summary (TLDR), else the translated abstract, else the raw abstract,
and degrades the abstract length through the ladder 600, 400, 250, 150,
100 until the rendered header-plus-paper fits the hard 4096-character
limit (not a soft budget below it); when the ladder finds a fit the
content is exactly the header plus the rendering at the first fitting
step, and when no ladder step fits, the block is rebuilt at step 100 and
force-truncated with the truncation marker appended as a suffix. -/
theorem c3_single_message_ladder (idx total : Nat) (paper : WPaper) (title dateStr : Str) :
    (∀ n, abstractLadder.find? (fun k =>
        (singleHeader idx total title dateStr ++ paperMd idx paper k).length ≤ 4096) = some n →
      buildSinglePaperContent idx total paper title dateStr
          = singleHeader idx total title dateStr ++ paperMd idx paper n
        ∧ (paper.tldr.getD [] ≠ [] →
            (str "**TLDR:** ") <:+: buildSinglePaperContent idx total paper title dateStr)
        ∧ (paper.tldr.getD [] = [] → paper.abstractZh.getD [] ≠ [] →
            (str "**摘要(中文):** ") <:+:
              buildSinglePaperContent idx total paper title dateStr)
        ∧ (paper.tldr.getD [] = [] → paper.abstractZh.getD [] = [] →
            paper.abstract.getD [] ≠ [] →
            (str "**摘要:** ") <:+: buildSinglePaperContent idx total paper title dateStr))
    ∧ (abstractLadder.find? (fun k =>
        (singleHeader idx total title dateStr ++ paperMd idx paper k).length ≤ 4096) = none →
      buildSinglePaperContent idx total paper title dateStr
          = (singleHeader idx total title dateStr ++ paperMd idx paper 100).take (4096 - 20)
              ++ truncMarker
        ∧ truncMarker <:+ buildSinglePaperContent idx total paper title dateStr) := by
  constructor
  · intro n hfind
    have hn : (singleHeader idx total title dateStr ++ paperMd idx paper n).length ≤ 4096 := by
      have h1 := List.find?_some hfind
      simpa using h1
    have hcontent : buildSinglePaperContent idx total paper title dateStr
        = singleHeader idx total title dateStr ++ paperMd idx paper n := by
      unfold buildSinglePaperContent
      dsimp only
      rw [hfind]
      dsimp only
      rw [if_neg (by omega)]
    refine ⟨hcontent, ?_, ?_, ?_⟩
    · intro h
      rcases paperMdBodyLine_tldr h n with ⟨rest, hb⟩
      rw [hcontent]
      exact marker_infix_of_bodyLine idx hb _
    · intro h1 h2
      rcases paperMdBodyLine_zh h1 h2 n with ⟨rest, hb⟩
      rw [hcontent]
      exact marker_infix_of_bodyLine idx hb _
    · intro h1 h2 h3
      rcases paperMdBodyLine_abs h1 h2 h3 n with ⟨rest, hb⟩
      rw [hcontent]
      exact marker_infix_of_bodyLine idx hb _
  · intro hfind
    have h100 : ¬ ((singleHeader idx total title dateStr
        ++ paperMd idx paper 100).length ≤ 4096) := by
      have h1 := List.find?_eq_none.mp hfind 100 (by decide)
      simpa using h1
    have hcontent : buildSinglePaperContent idx total paper title dateStr
        = (singleHeader idx total title dateStr ++ paperMd idx paper 100).take (4096 - 20)
            ++ truncMarker := by
      unfold buildSinglePaperContent
      dsimp only
      rw [hfind]
      dsimp only
      rw [if_pos (show (singleHeader idx total title dateStr
          ++ paperMd idx paper 100).length > 4096 by omega)]
      rw [if_neg (by
        simp only [List.length_append, truncMarker_length]
        have h2 := List.length_take_le (4096 - 20)
          (singleHeader idx total title dateStr ++ paperMd idx paper 100)
        omega)]
    refine ⟨hcontent, ?_⟩
    rw [hcontent]
    exact ⟨_, rfl⟩

/-- Witness for C3: a small paper with a TLDR fits at ladder step 600, the
content is the header plus that rendering, and the TLDR marker appears in
it. -/
theorem c3_single_message_ladder_witness :
    buildSinglePaperContent 1 1 witPaperC3 (str "T") dateStr0
        = singleHeader 1 1 (str "T") dateStr0 ++ paperMd 1 witPaperC3 600
    ∧ (str "**TLDR:** ") <:+: buildSinglePaperContent 1 1 witPaperC3 (str "T") dateStr0 := by
  have h := (c3_single_message_ladder 1 1 witPaperC3 (str "T") dateStr0).1 600 (by decide)
  exact ⟨h.1, h.2.1 (by decide)⟩

set_option maxRecDepth 40000 in
/-- Counterexample for C3 as stated: at a 3400-character configured title
and a long abstract, the rendering at ladder step 600 is 4066 characters:
it fits the hard limit 4096, so the code stops there, but it does not fit
the soft budget 4096 - 50; the ladder the claim describes (degrade until
the soft budget is met) continues to step 400 and yields 3866 characters.
The two outputs differ. -/
theorem c3_counterexample :
    (buildSinglePaperContent 1 1 cexPaperC3 bigTitleC3 dateStr0).length = 4066
    ∧ (buildSinglePaperContentSpecSoft 1 1 cexPaperC3 bigTitleC3 dateStr0).length = 3866 := by
  have hH : (singleHeader 1 1 bigTitleC3 dateStr0).length = 3433 := by
    unfold singleHeader bigTitleC3
    simp only [List.length_append, List.length_replicate]
    have e1 : (str "# ").length = 2 := rfl
    have e2 : (str "\n\n📚 **第 ").length = 8 := rfl
    have e3 : (str "/").length = 1 := rfl
    have e4 : (str " 篇** | ").length = 7 := rfl
    have e5 : (str "\n\n").length = 2 := rfl
    have e6 : dateStr0.length = 11 := rfl
    have e7 : (pyStr 1).length = 1 := rfl
    omega
  have hmd600 : (paperMd 1 cexPaperC3 600).length = 633 := by decide
  have hmd400 : (paperMd 1 cexPaperC3 400).length = 433 := by decide
  have hT600 : (singleHeader 1 1 bigTitleC3 dateStr0
      ++ paperMd 1 cexPaperC3 600).length = 4066 := by
    rw [List.length_append, hH, hmd600]
  have hT400 : (singleHeader 1 1 bigTitleC3 dateStr0
      ++ paperMd 1 cexPaperC3 400).length = 3866 := by
    rw [List.length_append, hH, hmd400]
  constructor
  · have hfind : abstractLadder.find? (fun k =>
        (singleHeader 1 1 bigTitleC3 dateStr0 ++ paperMd 1 cexPaperC3 k).length ≤ 4096)
        = some 600 := by
      unfold abstractLadder
      rw [List.find?_cons_of_pos _ (by simp [hT600])]
    have hcontent : buildSinglePaperContent 1 1 cexPaperC3 bigTitleC3 dateStr0
        = singleHeader 1 1 bigTitleC3 dateStr0 ++ paperMd 1 cexPaperC3 600 := by
      unfold buildSinglePaperContent
      dsimp only
      rw [hfind]
      dsimp only
      rw [if_neg (by omega)]
    rw [hcontent]
    exact hT600
  · have hfindS : abstractLadder.find? (fun k =>
        (singleHeader 1 1 bigTitleC3 dateStr0 ++ paperMd 1 cexPaperC3 k).length ≤ 4096 - 50)
        = some 400 := by
      unfold abstractLadder
      rw [List.find?_cons_of_neg _ (by simp [hT600])]
      rw [List.find?_cons_of_pos _ (by simp [hT400])]
    have hcontentS : buildSinglePaperContentSpecSoft 1 1 cexPaperC3 bigTitleC3 dateStr0
        = singleHeader 1 1 bigTitleC3 dateStr0 ++ paperMd 1 cexPaperC3 400 := by
      unfold buildSinglePaperContentSpecSoft
      dsimp only
      rw [hfindS]
      dsimp only
      rw [if_neg (by omega)]
    rw [hcontentS]
    exact hT400
